import Mathlib

/-!
# dcrvanity: the keypair search of `main.go`

A shallow embedding of `writeNewFile`, `searchKeyPair` and the part of `main`
that calls it.  The regular expression library, the key generator and the
address encoder are collaborators of the program: the search is parametric in
a `compile` function and in the stream `gen` of generation results, and a model
of a fragment of the regular expression library is given separately for the
statements that depend on what a pattern text means.
-/

namespace Dcrvanity

/-! ## Values -/

/-- Go error values that the program can hand back. -/
inductive Error
  | badPattern (expr : String)
  | keyGeneration
  | addressDerivation
  | shortWrite
  | os (code : Nat)
  deriving DecidableEq, Repr

/-- The fields of an `ecdsa.PrivateKey`: the public point and the scalar. -/
structure PrivateKey where
  X : Nat
  Y : Nat
  D : Nat
  deriving DecidableEq, Repr

/-- A `dcrutil.AddressPubKeyHash`, kept as the text `EncodeAddress` gives. -/
structure AddressPubKeyHash where
  encoded : String
  deriving DecidableEq, Repr

/-- Method `EncodeAddress`. -/
def AddressPubKeyHash.EncodeAddress (a : AddressPubKeyHash) : String := a.encoded

/-- A compiled `*regexp.Regexp`: its source text and its `MatchString`. -/
structure Regexp where
  expr : String
  MatchString : String → Bool

/-- What one pass of key generation and address derivation gives:
`ecdsa.GenerateKey` may fail, `dcrutil.NewAddressPubKeyHash` may fail,
or both succeed. -/
inductive GenResult
  | keyErr (e : Error)
  | addrErr (e : Error)
  | ok (key : PrivateKey) (addr : AddressPubKeyHash)
  deriving DecidableEq, Repr

/-- The lines the program prints, one constructor per print statement. -/
inductive Output
  | degenerateNotice
  | secondaryPattern (expr : String)
  | nilPrimaryNotice
  | primaryPattern (expr : String)
  | heartbeat (i : Nat)
  | hit (i : Nat) (addr : String)
  | pubKey (key : PrivateKey)
  | privKey (key : PrivateKey)
  | wif (key : PrivateKey)
  | woohoo
  deriving DecidableEq, Repr

/-- How a call of `searchKeyPair` stands after a bounded number of loop passes:
it has returned its three results, it has panicked on a nil pointer, or it is
still in the loop. -/
inductive Outcome
  | returned (priv : Option PrivateKey) (addr : Option AddressPubKeyHash) (err : Option Error)
  | panicked
  | running
  deriving DecidableEq, Repr

/-! ## writeNewFile -/

/-- Function `writeNewFile`, over the results of the three system calls:
`openErr` is the error of `os.OpenFile`, `n` and `writeErr` are the results of
`f.Write(data)`, `closeErr` is the error of `f.Close()`, and `len` is
`len(data)`. -/
def writeNewFile (openErr : Option Error) (n : Nat) (writeErr : Option Error)
    (len : Nat) (closeErr : Option Error) : Option Error :=
  match openErr with
  | some e => some e
  | none =>
    let err : Option Error :=
      if writeErr = none ∧ n < len then some Error.shortWrite else writeErr
    if err = none then
      -- f.Close(); return err
      err
    else
      -- err = f.Close()
      match closeErr with
      | some e => some e
      | none => none

/-! ## searchKeyPair -/

/-- The text handed to `regexp.Compile` for a pattern fragment. -/
def anchored (pattern : String) : String := "^Ds" ++ pattern

/-- The test `re != nil && re.MatchString(s)`. -/
def matchesNonNil (re : Option Regexp) (s : String) : Bool :=
  match re with
  | none => false
  | some r => r.MatchString s

/-- How one pass of the loop body ends. -/
inductive LoopExit
  | found (key : PrivateKey) (addr : AddressPubKeyHash)
  | failed (e : Error)
  deriving DecidableEq, Repr

/-- One pass of the body of the `for` loop of `searchKeyPair` at index `i`:
the lines printed and, when the pass leaves the loop, how.  The helpers
`Hash160` and `NewWIF` are defined outside `main.go`; as in the collaborator
contract of the specification they are total, the hash being part of what the
pass generates and the export encoding being the printed line `wif`. -/
def iteration (regexPrimary regexSecondary : Option Regexp) (inclusive : Bool)
    (i : Nat) (g : GenResult) : List Output × Option LoopExit :=
  match g with
  | .keyErr e => ([], some (.failed e))
  | .addrErr e => ([], some (.failed e))
  | .ok key0 addr0 =>
    let beat : List Output := if i % 10000 = 0 then [.heartbeat i] else []
    if inclusive then
      if matchesNonNil regexSecondary addr0.EncodeAddress then
        let report : List Output :=
          [.hit i addr0.EncodeAddress, .pubKey key0, .privKey key0]
        if matchesNonNil regexPrimary addr0.EncodeAddress then
          (beat ++ report ++ [.woohoo], some (.found key0 addr0))
        else
          (beat ++ report, none)
      else
        (beat, none)
    else
      let second : List Output :=
        if matchesNonNil regexSecondary addr0.EncodeAddress then
          [.hit i addr0.EncodeAddress, .pubKey key0, .wif key0]
        else []
      if matchesNonNil regexPrimary addr0.EncodeAddress then
        (beat ++ second ++
          [.woohoo, .hit i addr0.EncodeAddress, .pubKey key0, .wif key0],
          some (.found key0 addr0))
      else
        (beat ++ second, none)

/-- The `for i := 0; ; i++` loop, run for at most `fuel` passes from index `i`.
The second component is `none` while the loop has not been left. -/
def searchLoop (regexPrimary regexSecondary : Option Regexp) (inclusive : Bool)
    (gen : Nat → GenResult) : Nat → Nat → List Output × Option LoopExit
  | 0, _ => ([], none)
  | fuel + 1, i =>
    match iteration regexPrimary regexSecondary inclusive i (gen i) with
    | (out, some e) => (out, some e)
    | (out, none) =>
      let rest := searchLoop regexPrimary regexSecondary inclusive gen fuel (i + 1)
      (out ++ rest.1, rest.2)

/-- Function `searchKeyPair`, observed after at most `fuel` passes of its loop.
`compile` is `regexp.Compile`; `gen i` is what pass `i` generates.  A method
call on a nil `*regexp.Regexp` is a panic. -/
def searchKeyPair (compile : String → Except Error Regexp) (gen : Nat → GenResult)
    (primaryPattern secondaryPattern : String) (inclusive : Bool) (fuel : Nat) :
    List Output × Outcome :=
  let err : Option Error := none
  -- the secondary pattern
  let secondary : Except (List Output × Outcome) (Option Regexp) :=
    if secondaryPattern.length > 0 then
      match compile (anchored secondaryPattern) with
      | .error e => .error ([], .returned none none (some e))
      | .ok re => .ok (some re)
    else if inclusive then
      .error ([.degenerateNotice], .returned none none err)
    else
      .ok none
  match secondary with
  | .error r => r
  | .ok regexSecondary =>
    -- fmt.Println("Secondary pattern: ", regexSecondary.String())
    match regexSecondary with
    | none => ([], .panicked)
    | some reS =>
      let out1 : List Output := [.secondaryPattern reS.expr]
      let primary : Except (List Output × Outcome) (List Output × Option Regexp) :=
        if primaryPattern.length > 0 then
          match compile (anchored primaryPattern) with
          | .error e => .error (out1, .returned none none (some e))
          | .ok re => .ok (out1, some re)
        else
          .ok (out1 ++ [.nilPrimaryNotice], none)
      match primary with
      | .error r => r
      | .ok (out2, regexPrimary) =>
        -- fmt.Println("Primary pattern: ", regexPrimary.String())
        match regexPrimary with
        | none => (out2, .panicked)
        | some reP =>
          let out3 := out2 ++ [.primaryPattern reP.expr]
          match searchLoop regexPrimary regexSecondary inclusive gen fuel 0 with
          | (out, none) => (out3 ++ out, .running)
          | (out, some (.failed e)) => (out3 ++ out, .returned none none (some e))
          | (out, some (.found key addr)) =>
            (out3 ++ out, .returned (some ⟨key.X, key.Y, key.D⟩) (some addr) none)

/-! ## main -/

/-- The network parameter sets of `chaincfg`. -/
inductive Params
  | MainNetParams
  | TestNetParams
  | SimNetParams
  deriving DecidableEq, Repr

/-- The two characters every encoded pay-to-pubkey-hash address of a network
starts with (`chaincfg`: `PubKeyHashAddrID`, bytes 073f, 0f21 and 0e91). -/
def Params.pubKeyHashLead : Params → String
  | .MainNetParams => "Ds"
  | .TestNetParams => "Ts"
  | .SimNetParams => "Ss"

/-- The network selection of `main`: `none` when both flags are given
(the message "Only specify one network." and return). -/
def selectParams (testnet simnet : Bool) : Option Params :=
  let params := Params.MainNetParams
  if testnet then
    if simnet then none
    else some Params.TestNetParams
  else if simnet then some Params.SimNetParams
  else some params

/-- How `main` ends after the search. -/
inductive MainOutcome
  | usage
  | networkConflict
  | searchError (e : Error)
  | printed (priv : PrivateKey) (addr : Option AddressPubKeyHash)
  | panicked
  | running
  deriving DecidableEq, Repr

/-- Function `main` after flag parsing: the help flag, the network flags, the
call `searchKeyPair(*pattern1, *pattern2, true)` and the use of its results;
`NewWIF(*priv)` on a nil `priv` is a panic. -/
def main (compile : String → Except Error Regexp) (gen : Nat → GenResult)
    (getHelp testnet simnet : Bool) (pattern1 pattern2 : String) (fuel : Nat) :
    MainOutcome :=
  if getHelp then .usage
  else
    match selectParams testnet simnet with
    | none => .networkConflict
    | some _ =>
      match (searchKeyPair compile gen pattern1 pattern2 true fuel).2 with
      | .running => .running
      | .panicked => .panicked
      | .returned _ _ (some e) => .searchError e
      | .returned (some priv) addr none => .printed priv addr
      | .returned none _ none => .panicked

/-! ## A fragment of the regular expression library

The texts over literal characters and the operators `( ) | * . ^`, parsed the
way `regexp/syntax` parses them under the flags of `regexp.Compile` (`^` is the
start of the text, `.` is any character but a newline, a repetition operator
directly after another one is refused) and matched the way `MatchString`
searches: at any start position.  A text in which one of the characters
`\ + ? [ { $` is reached before a syntax error lies outside the fragment: the
parser stops there without a verdict, and the compile function hands the text
to a `library` parameter, which stands for the library on all such texts.
Capture groups do not change whether a text matches and are not recorded, the
merging of single-character alternatives into a class is left as an
alternation, and the limits on nesting depth and size that later versions of
the library add are not modelled.
-/

/-- The syntax tree of a pattern (`syntax.Regexp`, by operator). -/
inductive Regex
  | emptyMatch
  | noMatch
  | literal (c : Char)
  | anyCharNotNL
  | beginText
  | concat (r s : Regex)
  | alternate (r s : Regex)
  | star (r : Regex)
  deriving DecidableEq, Repr

/-- An entry of the parse stack: an operand or one of the two
pseudo-operators. -/
inductive Item
  | re (r : Regex)
  | leftParen
  | verticalBar
  deriving DecidableEq, Repr

/-- Method `collapse(subs, OpConcat)`. -/
def collapseConcat : List Regex → Regex
  | [] => .emptyMatch
  | [r] => r
  | r :: rs => .concat r (collapseConcat rs)

/-- Method `collapse(subs, OpAlternate)`. -/
def collapseAlternate : List Regex → Regex
  | [] => .noMatch
  | [r] => r
  | r :: rs => .alternate r (collapseAlternate rs)

/-- The operands above the nearest pseudo-operator, in source order, and the
stack below them.  The head of the list is the top of the stack. -/
def splitOperands : List Item → List Regex × List Item
  | .re r :: st => ((splitOperands st).1 ++ [r], (splitOperands st).2)
  | st => ([], st)

/-- Method `concat` of the parser. -/
def concat (st : List Item) : List Item :=
  .re (collapseConcat (splitOperands st).1) :: (splitOperands st).2

/-- Method `alternate` of the parser. -/
def alternate (st : List Item) : List Item :=
  .re (collapseAlternate (splitOperands st).1) :: (splitOperands st).2

/-- Method `swapVerticalBar`: `some` of the new stack when it swapped. -/
def swapVerticalBar : List Item → Option (List Item)
  | x :: .verticalBar :: rest => some (.verticalBar :: x :: rest)
  | _ => none

/-- Method `parseVerticalBar`. -/
def parseVerticalBar (st : List Item) : List Item :=
  match swapVerticalBar (concat st) with
  | some st2 => st2
  | none => .verticalBar :: concat st

/-- The steps `concat`, `swapVerticalBar` with the pop of the bar, and
`alternate`, which both `parseRightParen` and the end of `parse` run. -/
def closeAlternation (st : List Item) : List Item :=
  alternate (match swapVerticalBar (concat st) with
    | some st2 => st2.tail
    | none => concat st)

/-- Method `parseRightParen`; `none` is the error "unexpected )". -/
def parseRightParen (st : List Item) : Option (List Item) :=
  match closeAlternation st with
  | .re r1 :: .leftParen :: rest => some (.re r1 :: rest)
  | _ => none

/-- Method `repeat` for the operator `*`; `none` is one of the errors
"invalid nested repetition operator" and "missing argument to repetition
operator". -/
def repeatStar (lastRepeat : Bool) (st : List Item) : Option (List Item) :=
  if lastRepeat then none
  else match st with
    | .re sub :: rest => some (.re (.star sub) :: rest)
    | _ => none

/-- Why the parser stops without a syntax tree: the text has a syntax error,
or it reaches a construct outside the fragment. -/
inductive ParseStop
  | bad
  | outside
  deriving DecidableEq, Repr

/-- The characters that start a construct outside the fragment: escapes,
the repetitions `+`, `?` and braces (with `?` also the non-greedy marks and
the groups with flags), character classes and the end of the text. -/
def isOutside (c : Char) : Bool :=
  c ∈ ['\\', '+', '?', '[', '{', '$']

/-- The main loop of `parse` over the remaining text; `lastRepeat` tells
whether the character before was a repetition operator.  Every character that
is neither an operator of the fragment nor the start of a construct outside
it is a literal. -/
def parseLoop : List Char → Bool → List Item → Except ParseStop (List Item)
  | [], _, st => .ok st
  | c :: t, lastRepeat, st =>
    if c = '(' then parseLoop t false (.leftParen :: st)
    else if c = '|' then parseLoop t false (parseVerticalBar st)
    else if c = ')' then
      match parseRightParen st with
      | some st2 => parseLoop t false st2
      | none => .error .bad
    else if c = '^' then parseLoop t false (.re .beginText :: st)
    else if c = '.' then parseLoop t false (.re .anyCharNotNL :: st)
    else if c = '*' then
      match repeatStar lastRepeat st with
      | some st2 => parseLoop t true st2
      | none => .error .bad
    else if isOutside c then .error .outside
    else parseLoop t false (.re (.literal c) :: st)

/-- Function `parse`: the syntax tree, a syntax error ("missing closing )" at
the end), or no verdict for a text outside the fragment. -/
def parse (s : List Char) : Except ParseStop Regex :=
  match parseLoop s false [] with
  | .error e => .error e
  | .ok st =>
    match closeAlternation st with
    | [.re r] => .ok r
    | _ => .error .bad

/-- The length of the longest of the remaining texts `ps`. -/
def longest (ps : List (List Char)) : Nat :=
  ps.foldr (fun p m => max p.length m) 0

/-- The positions (as remaining texts) reachable from the positions `ps` by
matching `r`, in a text of length `n`.  A repetition is unrolled once more
than the longest remaining text has characters. -/
def advance (n : Nat) : Regex → List (List Char) → List (List Char)
  | .emptyMatch, ps => ps
  | .noMatch, _ => []
  | .literal c, ps => ps.filterMap (fun p => match p with
      | x :: xs => if x = c then some xs else none
      | [] => none)
  | .anyCharNotNL, ps => ps.filterMap (fun p => match p with
      | x :: xs => if x = '\n' then none else some xs
      | [] => none)
  | .beginText, ps => ps.filter (fun p => p.length = n)
  | .concat r s, ps => advance n s (advance n r ps)
  | .alternate r s, ps => advance n r ps ++ advance n s ps
  | .star r, ps =>
    (List.range (longest ps + 1)).foldl (fun acc _ => ps ++ advance n r acc) ps

/-- Method `MatchString`: the pattern matches somewhere in the text. -/
def matchString (r : Regex) (t : String) : Bool :=
  !(advance t.length r t.data.tails).isEmpty

/-- The pattern matches at the start of the text (whatever follows the
match). -/
def matchAtStart (r : Regex) (t : String) : Bool :=
  !(advance t.length r [t.data]).isEmpty

/-- Function `regexp.Compile`: by the model on the texts of the fragment, and
by `library`, which stands for the library itself, on every other text. -/
def regexpCompile (library : String → Except Error Regexp) (expr : String) :
    Except Error Regexp :=
  match parse expr.data with
  | .ok r => .ok ⟨expr, matchString r⟩
  | .error .bad => .error (.badPattern expr)
  | .error .outside => library expr

/-- A stand-in for the library in the sample runs, whose patterns all lie in
the fragment, so that it is never asked. -/
def unusedLibrary (expr : String) : Except Error Regexp :=
  .error (.badPattern expr)


/-! ## Shapes of patterns and of parse stacks -/

/-- Every `|` of the text lies inside parentheses, `d` of which are open at
the start of the text. -/
def barsInParens : Nat → List Char → Bool
  | _, [] => true
  | d, c :: t =>
    if c = '(' then barsInParens (d + 1) t
    else if c = ')' then barsInParens (d - 1) t
    else if c = '|' then decide (0 < d) && barsInParens d t
    else barsInParens d t

/-- The pattern has no `^` in it. -/
def Regex.anchorFree : Regex → Bool
  | .beginText => false
  | .concat r s => r.anchorFree && s.anchorFree
  | .alternate r s => r.anchorFree && s.anchorFree
  | .star r => r.anchorFree
  | _ => true

/-- The stack entry is an operand, not a pseudo-operator. -/
def Item.isOperand : Item → Bool
  | .re _ => true
  | _ => false

/-- The number of open parentheses on the stack. -/
def depthOf : List Item → Nat
  | [] => 0
  | .leftParen :: st => depthOf st + 1
  | _ :: st => depthOf st

/-- Every vertical bar on the stack has an open parenthesis below it. -/
def guarded : List Item → Prop
  | [] => True
  | .verticalBar :: st => 0 < depthOf st ∧ guarded st
  | _ :: st => guarded st

/-- No pattern on the stack has a `^` in it. -/
def stackAnchorFree (st : List Item) : Prop :=
  ∀ r, Item.re r ∈ st → r.anchorFree = true

/-! ## Sample runs -/

/-- A stream of generated keypairs: the address of pass 0 is matched by the
fragment "ab" but not by "abc", the address of pass 1 by both, and the later
ones by neither. -/
def sampleGen (i : Nat) : GenResult :=
  .ok ⟨i, i + 1, i + 2⟩
    ⟨if i = 0 then "Dsabx" else if i = 1 then "Dsabcd" else "Dsq"⟩

/-- The key of pass `i` of a stream in which pass 2 is the first whose address
the fragment "ab" matches. -/
def sampleKey (i : Nat) : PrivateKey := ⟨i, i + 1, i + 2⟩

/-- The address of pass `i` of that stream. -/
def sampleAddr (i : Nat) : AddressPubKeyHash :=
  ⟨if i = 2 then "Dsabx" else "Dsq"⟩

/-- A stream of generated keypairs none of whose addresses is matched by the
fragments "ab" and "abc". -/
def quietGen (i : Nat) : GenResult := .ok ⟨i, i + 1, i + 2⟩ ⟨"Dsq"⟩

/-- The output line is a heartbeat report. -/
def Output.isHeartbeat : Output → Bool
  | .heartbeat _ => true
  | _ => false

/-! ## The loop -/

theorem length_pos_of_ne_empty (s : String) (h : s ≠ "") : s.length > 0 := by
  rcases s with ⟨l⟩
  cases l with
  | nil => exact absurd rfl h
  | cons c t => simp [String.length]

theorem searchLoop_zero (rp rs : Option Regexp) (inc : Bool) (gen : Nat → GenResult)
    (i : Nat) : searchLoop rp rs inc gen 0 i = ([], none) := rfl

theorem searchLoop_succ_exit (rp rs : Option Regexp) (inc : Bool) (gen : Nat → GenResult)
    (fuel i : Nat) (out : List Output) (e : LoopExit)
    (h : iteration rp rs inc i (gen i) = (out, some e)) :
    searchLoop rp rs inc gen (fuel + 1) i = (out, some e) := by
  simp [searchLoop, h]

theorem searchLoop_succ_continue (rp rs : Option Regexp) (inc : Bool)
    (gen : Nat → GenResult) (fuel i : Nat) (out : List Output)
    (h : iteration rp rs inc i (gen i) = (out, none)) :
    searchLoop rp rs inc gen (fuel + 1) i =
      (out ++ (searchLoop rp rs inc gen fuel (i + 1)).1,
        (searchLoop rp rs inc gen fuel (i + 1)).2) := by
  simp [searchLoop, h]

/-- While no pass leaves the loop, the loop is still running. -/
theorem searchLoop_running (rp rs : Option Regexp) (inc : Bool) (gen : Nat → GenResult) :
    ∀ (n i : Nat),
      (∀ j, j < n → (iteration rp rs inc (i + j) (gen (i + j))).2 = none) →
      (searchLoop rp rs inc gen n i).2 = none := by
  intro n
  induction n with
  | zero => intro i _; rfl
  | succ n ih =>
    intro i h
    have h0 := h 0 (Nat.succ_pos n)
    rw [Nat.add_zero] at h0
    rw [searchLoop_succ_continue rp rs inc gen n i _ (Prod.ext rfl h0)]
    apply ih
    intro j hj
    have := h (j + 1) (Nat.succ_lt_succ hj)
    rwa [show i + (j + 1) = i + 1 + j by omega] at this

/-- The loop is left at the first pass that leaves it. -/
theorem searchLoop_exit (rp rs : Option Regexp) (inc : Bool) (gen : Nat → GenResult)
    (e : LoopExit) :
    ∀ (k fuel i : Nat), k < fuel →
      (∀ j, j < k → (iteration rp rs inc (i + j) (gen (i + j))).2 = none) →
      (iteration rp rs inc (i + k) (gen (i + k))).2 = some e →
      (searchLoop rp rs inc gen fuel i).2 = some e := by
  intro k
  induction k with
  | zero =>
    intro fuel i hf _ hk
    obtain ⟨f, rfl⟩ : ∃ f, fuel = f + 1 := ⟨fuel - 1, by omega⟩
    rw [Nat.add_zero] at hk
    rw [searchLoop_succ_exit rp rs inc gen f i _ e (Prod.ext rfl hk)]
  | succ k ih =>
    intro fuel i hf h hk
    obtain ⟨f, rfl⟩ : ∃ f, fuel = f + 1 := ⟨fuel - 1, by omega⟩
    have h0 := h 0 (Nat.succ_pos k)
    rw [Nat.add_zero] at h0
    rw [searchLoop_succ_continue rp rs inc gen f i _ (Prod.ext rfl h0)]
    apply ih f (i + 1) (by omega)
    · intro j hj
      have := h (j + 1) (Nat.succ_lt_succ hj)
      rwa [show i + (j + 1) = i + 1 + j by omega] at this
    · rwa [show i + (k + 1) = i + 1 + k by omega] at hk

/-- When the loop has been left, it was left at some pass before which no
pass left it. -/
theorem searchLoop_exit_inv (rp rs : Option Regexp) (inc : Bool) (gen : Nat → GenResult)
    (e : LoopExit) :
    ∀ (fuel i : Nat), (searchLoop rp rs inc gen fuel i).2 = some e →
      ∃ k, k < fuel ∧
        (∀ j, j < k → (iteration rp rs inc (i + j) (gen (i + j))).2 = none) ∧
        (iteration rp rs inc (i + k) (gen (i + k))).2 = some e := by
  intro fuel
  induction fuel with
  | zero => intro i h; simp [searchLoop] at h
  | succ f ih =>
    intro i h
    cases hit : (iteration rp rs inc i (gen i)).2 with
    | some e2 =>
      rw [searchLoop_succ_exit rp rs inc gen f i _ e2 (Prod.ext rfl hit)] at h
      simp only [Option.some.injEq] at h
      subst h
      exact ⟨0, Nat.succ_pos f, fun j hj => absurd hj (Nat.not_lt_zero j), by simpa using hit⟩
    | none =>
      rw [searchLoop_succ_continue rp rs inc gen f i _ (Prod.ext rfl hit)] at h
      obtain ⟨k, hk, hbefore, hat⟩ := ih (i + 1) h
      refine ⟨k + 1, Nat.succ_lt_succ hk, ?_, ?_⟩
      · intro j hj
        cases j with
        | zero => simpa using hit
        | succ j =>
          have := hbefore j (by omega)
          rwa [show i + 1 + j = i + (j + 1) by omega] at this
      · rwa [show i + 1 + k = i + (k + 1) by omega] at hat

/-- With both patterns given and compiled, `searchKeyPair` is its loop. -/
theorem searchKeyPair_compiled (compile : String → Except Error Regexp)
    (gen : Nat → GenResult) (pri sec : String) (inc : Bool) (fuel : Nat)
    (rp rs : Regexp) (hp : pri ≠ "") (hs : sec ≠ "")
    (hcp : compile (anchored pri) = .ok rp) (hcs : compile (anchored sec) = .ok rs) :
    searchKeyPair compile gen pri sec inc fuel =
      ([.secondaryPattern rs.expr, .primaryPattern rp.expr] ++
          (searchLoop (some rp) (some rs) inc gen fuel 0).1,
        match (searchLoop (some rp) (some rs) inc gen fuel 0).2 with
        | none => .running
        | some (.failed e) => .returned none none (some e)
        | some (.found key addr) => .returned (some key) (some addr) none) := by
  have hp2 := length_pos_of_ne_empty pri hp
  have hs2 := length_pos_of_ne_empty sec hs
  simp only [searchKeyPair, hp2, hs2, hcp, hcs, if_true]
  rcases hl : searchLoop (some rp) (some rs) inc gen fuel 0 with ⟨out, _ | e⟩
  · simp
  · cases e <;> simp


/-! ## The two modes -/

theorem iteration_inclusive_found (rp rs : Regexp) (i : Nat) (g : GenResult)
    (key : PrivateKey) (a : AddressPubKeyHash)
    (h : (iteration (some rp) (some rs) true i g).2 = some (.found key a)) :
    g = .ok key a ∧ rs.MatchString a.EncodeAddress = true ∧
      rp.MatchString a.EncodeAddress = true := by
  cases g with
  | keyErr e => simp [iteration] at h
  | addrErr e => simp [iteration] at h
  | ok k b =>
    simp only [iteration, matchesNonNil, if_true] at h
    by_cases h1 : rs.MatchString b.EncodeAddress = true
    · by_cases h2 : rp.MatchString b.EncodeAddress = true
      · simp [h1, h2] at h
        obtain ⟨rfl, rfl⟩ := h
        exact ⟨rfl, h1, h2⟩
      · simp [h1, h2] at h
    · simp [h1] at h

theorem iteration_inclusive_continue (rp rs : Regexp) (i : Nat) (g : GenResult)
    (h : (iteration (some rp) (some rs) true i g).2 = none) :
    ∃ k b, g = .ok k b ∧
      (rs.MatchString b.EncodeAddress = false ∨ rp.MatchString b.EncodeAddress = false) := by
  cases g with
  | keyErr e => simp [iteration] at h
  | addrErr e => simp [iteration] at h
  | ok k b =>
    refine ⟨k, b, rfl, ?_⟩
    simp only [iteration, matchesNonNil, if_true] at h
    by_cases h1 : rs.MatchString b.EncodeAddress = true
    · by_cases h2 : rp.MatchString b.EncodeAddress = true
      · simp [h1, h2] at h
      · right; simpa using h2
    · left; simpa using h1

theorem iteration_exclusive_found (rp rs : Option Regexp) (r : Regexp) (i : Nat)
    (key : PrivateKey) (a : AddressPubKeyHash) (hrp : rp = some r)
    (h : r.MatchString a.EncodeAddress = true) :
    (iteration rp rs false i (.ok key a)).2 = some (.found key a) := by
  subst hrp
  simp [iteration, matchesNonNil, h]

theorem iteration_exclusive_continue (rp rs : Option Regexp) (r : Regexp) (i : Nat)
    (key : PrivateKey) (a : AddressPubKeyHash) (hrp : rp = some r)
    (h : r.MatchString a.EncodeAddress = false) :
    (iteration rp rs false i (.ok key a)).2 = none := by
  subst hrp
  simp [iteration, matchesNonNil, h]

/-- C1: in inclusive mode with both patterns non-empty, whenever `searchKeyPair`
has returned with a nil error, both patterns compiled and the key and address
returned are those of a pass `i` whose address matched the secondary and the
primary matcher; the loop was still running after the `i` passes before it, in
each of which the secondary or the primary matcher did not match, so a pass
whose address matches the primary but not the secondary does not end the loop. -/
theorem searchKeyPair_inclusive_result_matched_both
    (compile : String → Except Error Regexp) (gen : Nat → GenResult)
    (pri sec : String) (fuel : Nat) (out : List Output)
    (priv : Option PrivateKey) (addr : Option AddressPubKeyHash)
    (hp : pri ≠ "") (hs : sec ≠ "")
    (hret : searchKeyPair compile gen pri sec true fuel = (out, .returned priv addr none)) :
    ∃ rp rs i key a,
      compile (anchored pri) = .ok rp ∧ compile (anchored sec) = .ok rs ∧
      i < fuel ∧ gen i = .ok key a ∧ priv = some key ∧ addr = some a ∧
      rs.MatchString a.EncodeAddress = true ∧ rp.MatchString a.EncodeAddress = true ∧
      (searchKeyPair compile gen pri sec true i).2 = .running ∧
      ∀ j, j < i → ∃ kj aj, gen j = .ok kj aj ∧
        (rs.MatchString aj.EncodeAddress = false ∨
          rp.MatchString aj.EncodeAddress = false) := by
  have hp2 := length_pos_of_ne_empty pri hp
  have hs2 := length_pos_of_ne_empty sec hs
  cases hcs : compile (anchored sec) with
  | error e => simp [searchKeyPair, hs2, hcs] at hret
  | ok rs =>
    cases hcp : compile (anchored pri) with
    | error e => simp [searchKeyPair, hs2, hp2, hcs, hcp] at hret
    | ok rp =>
      rw [searchKeyPair_compiled compile gen pri sec true fuel rp rs hp hs hcp hcs] at hret
      cases hl : (searchLoop (some rp) (some rs) true gen fuel 0).2 with
      | none => simp [hl] at hret
      | some e =>
        cases e with
        | failed e => simp [hl] at hret
        | found key a =>
          simp only [hl, Prod.mk.injEq, Outcome.returned.injEq, and_true] at hret
          obtain ⟨_, hpriv, haddr⟩ := hret
          obtain ⟨i, hi, hbefore, hat⟩ :=
            searchLoop_exit_inv (some rp) (some rs) true gen _ fuel 0 hl
          simp only [Nat.zero_add] at hbefore hat
          obtain ⟨hg, hms, hmp⟩ := iteration_inclusive_found rp rs i (gen i) key a hat
          refine ⟨rp, rs, i, key, a, rfl, rfl, hi, hg, hpriv.symm, haddr.symm, hms, hmp, ?_, ?_⟩
          · rw [searchKeyPair_compiled compile gen pri sec true i rp rs hp hs hcp hcs]
            have : (searchLoop (some rp) (some rs) true gen i 0).2 = none :=
              searchLoop_running (some rp) (some rs) true gen i 0
                (fun j hj => by simpa using hbefore j hj)
            simp [this]
          · intro j hj
            exact iteration_inclusive_continue rp rs j (gen j) (hbefore j hj)

/-- C2: in exclusive mode with both patterns non-empty and compiled, when the
passes up to `k` generate keypairs and pass `k` is the first whose address
matches the primary matcher, `searchKeyPair` is still running after `k` passes
and, with any larger number of passes allowed, has returned the key and the
address of pass `k` with a nil error, whatever the secondary matcher says. -/
theorem searchKeyPair_exclusive_first_primary
    (compile : String → Except Error Regexp) (gen : Nat → GenResult)
    (pri sec : String) (rp rs : Regexp) (k fuel : Nat)
    (key : Nat → PrivateKey) (addr : Nat → AddressPubKeyHash)
    (hp : pri ≠ "") (hs : sec ≠ "")
    (hcp : compile (anchored pri) = .ok rp) (hcs : compile (anchored sec) = .ok rs)
    (hgen : ∀ i, i ≤ k → gen i = .ok (key i) (addr i))
    (hfirst : ∀ i, i < k → rp.MatchString (addr i).EncodeAddress = false)
    (hk : rp.MatchString (addr k).EncodeAddress = true)
    (hfuel : k < fuel) :
    (searchKeyPair compile gen pri sec false fuel).2 =
        .returned (some (key k)) (some (addr k)) none ∧
      (searchKeyPair compile gen pri sec false k).2 = .running := by
  have hbefore : ∀ j, j < k →
      (iteration (some rp) (some rs) false (0 + j) (gen (0 + j))).2 = none := by
    intro j hj
    rw [Nat.zero_add, hgen j (Nat.le_of_lt hj)]
    exact iteration_exclusive_continue _ _ rp j _ _ rfl (hfirst j hj)
  have hat : (iteration (some rp) (some rs) false (0 + k) (gen (0 + k))).2 =
      some (.found (key k) (addr k)) := by
    rw [Nat.zero_add, hgen k (Nat.le_refl k)]
    exact iteration_exclusive_found _ _ rp k _ _ rfl hk
  constructor
  · rw [searchKeyPair_compiled compile gen pri sec false fuel rp rs hp hs hcp hcs]
    simp [searchLoop_exit (some rp) (some rs) false gen _ k fuel 0 hfuel hbefore hat]
  · rw [searchKeyPair_compiled compile gen pri sec false k rp rs hp hs hcp hcs]
    simp [searchLoop_running (some rp) (some rs) false gen k 0 hbefore]

/-! ## Absent patterns -/

/-- C3: with an empty secondary pattern in exclusive mode, `searchKeyPair`
panics on `regexSecondary.String()` for every primary pattern, before any
keypair is generated: nothing is printed and nothing is returned. -/
theorem searchKeyPair_empty_secondary_exclusive_panics
    (compile : String → Except Error Regexp) (gen : Nat → GenResult)
    (pri : String) (fuel : Nat) :
    searchKeyPair compile gen pri "" false fuel = ([], .panicked) := by
  simp [searchKeyPair]

/-- C4: with an empty primary pattern and a non-empty secondary pattern that
compiles, `searchKeyPair` prints the notice that the program will never quit
and then panics on `regexPrimary.String()`, in either mode and before the
loop is entered. -/
theorem searchKeyPair_empty_primary_panics
    (compile : String → Except Error Regexp) (gen : Nat → GenResult)
    (sec : String) (inclusive : Bool) (fuel : Nat) (rs : Regexp)
    (hs : sec ≠ "") (hcs : compile (anchored sec) = .ok rs) :
    searchKeyPair compile gen "" sec inclusive fuel =
      ([.secondaryPattern rs.expr, .nilPrimaryNotice], .panicked) := by
  have hs2 := length_pos_of_ne_empty sec hs
  simp [searchKeyPair, hs2, hcs]

/-- C5: with an empty secondary pattern in inclusive mode, `searchKeyPair`
prints its notice and returns a nil key, a nil address and a nil error for
every primary pattern, and `main`, which sees no error, panics on the nil
key. -/
theorem searchKeyPair_degenerate_returns_nil_error
    (compile : String → Except Error Regexp) (gen : Nat → GenResult)
    (pri : String) (fuel : Nat) :
    searchKeyPair compile gen pri "" true fuel =
        ([.degenerateNotice], .returned none none none) ∧
      main compile gen false false false pri "" fuel = .panicked := by
  have h : searchKeyPair compile gen pri "" true fuel =
      ([.degenerateNotice], .returned none none none) := by
    simp [searchKeyPair]
  exact ⟨h, by simp [main, selectParams, h]⟩

/-- C6: the primary fragment "(" is not a valid pattern once prefixed, and
with an empty secondary pattern `searchKeyPair` returns a nil error for it in
inclusive mode and panics in exclusive mode; the error of the compilation is
never reported. -/
theorem searchKeyPair_bad_primary_not_reported (library : String → Except Error Regexp)
    (gen : Nat → GenResult) (fuel : Nat) :
    regexpCompile library (anchored "(") = .error (.badPattern "^Ds(") ∧
      searchKeyPair (regexpCompile library) gen "(" "" true fuel =
        ([.degenerateNotice], .returned none none none) ∧
      searchKeyPair (regexpCompile library) gen "(" "" false fuel = ([], .panicked) := by
  refine ⟨by rfl, ?_, ?_⟩ <;> simp [searchKeyPair]

/-! ## writeNewFile -/

/-- C10: after a successful open, `writeNewFile` returns nil when the write
failed and the close succeeded, and also when the write was short and the
close succeeded. -/
theorem writeNewFile_write_error_lost :
    (∀ (n len : Nat) (e : Error), writeNewFile none n (some e) len none = none) ∧
      writeNewFile none 0 none 1 none = none := by
  constructor
  · intro n len e
    simp [writeNewFile]
  · simp [writeNewFile]


theorem searchKeyPair_inclusive_result_matched_both_witness :
    ∃ rp rs i key a,
      regexpCompile unusedLibrary (anchored "ab") = .ok rp ∧
      regexpCompile unusedLibrary (anchored "abc") = .ok rs ∧
      i < 5 ∧ sampleGen i = .ok key a ∧
      some (⟨1, 2, 3⟩ : PrivateKey) = some key ∧
      some (⟨"Dsabcd"⟩ : AddressPubKeyHash) = some a ∧
      rs.MatchString a.EncodeAddress = true ∧ rp.MatchString a.EncodeAddress = true ∧
      (searchKeyPair (regexpCompile unusedLibrary) sampleGen "ab" "abc" true i).2 = .running ∧
      ∀ j, j < i → ∃ kj aj, sampleGen j = .ok kj aj ∧
        (rs.MatchString aj.EncodeAddress = false ∨
          rp.MatchString aj.EncodeAddress = false) :=
  searchKeyPair_inclusive_result_matched_both (regexpCompile unusedLibrary) sampleGen
    "ab" "abc" 5
    [.secondaryPattern "^Dsabc", .primaryPattern "^Dsab", .heartbeat 0,
      .hit 1 "Dsabcd", .pubKey ⟨1, 2, 3⟩, .privKey ⟨1, 2, 3⟩, .woohoo]
    (some ⟨1, 2, 3⟩) (some ⟨"Dsabcd"⟩) (by decide) (by decide) (by rfl)

theorem searchKeyPair_exclusive_first_primary_witness :
    (searchKeyPair (regexpCompile unusedLibrary) (fun i => .ok (sampleKey i) (sampleAddr i))
        "ab" "zz" false 4).2 =
        .returned (some (sampleKey 2)) (some (sampleAddr 2)) none ∧
      (searchKeyPair (regexpCompile unusedLibrary) (fun i => .ok (sampleKey i) (sampleAddr i))
        "ab" "zz" false 2).2 = .running :=
  searchKeyPair_exclusive_first_primary (regexpCompile unusedLibrary)
    (fun i => .ok (sampleKey i) (sampleAddr i)) "ab" "zz"
    ⟨"^Dsab", matchString (.concat .beginText (.concat (.literal 'D')
      (.concat (.literal 's') (.concat (.literal 'a') (.literal 'b')))))⟩
    ⟨"^Dszz", matchString (.concat .beginText (.concat (.literal 'D')
      (.concat (.literal 's') (.concat (.literal 'z') (.literal 'z')))))⟩
    2 4 sampleKey sampleAddr (by decide) (by decide) (by rfl) (by rfl)
    (fun _ _ => rfl) (by decide) (by rfl) (by decide)

theorem searchKeyPair_empty_primary_panics_witness :
    searchKeyPair (regexpCompile unusedLibrary) sampleGen "" "abc" true 5 =
      ([.secondaryPattern "^Dsabc", .nilPrimaryNotice], .panicked) :=
  searchKeyPair_empty_primary_panics (regexpCompile unusedLibrary) sampleGen "abc" true 5
    ⟨"^Dsabc", matchString (.concat .beginText (.concat (.literal 'D')
      (.concat (.literal 's') (.concat (.literal 'a')
        (.concat (.literal 'b') (.literal 'c'))))))⟩
    (by decide) (by rfl)


/-! ## Heartbeats -/

theorem iteration_quiet (rp rs : Regexp) (inc : Bool) (i : Nat) (key : PrivateKey)
    (a : AddressPubKeyHash) (hs : rs.MatchString a.EncodeAddress = false)
    (hp : rp.MatchString a.EncodeAddress = false) :
    iteration (some rp) (some rs) inc i (.ok key a) =
      (if i % 10000 = 0 then [.heartbeat i] else [], none) := by
  cases inc <;> simp [iteration, matchesNonNil, hs, hp]

/-- A run of the loop splits at any pass before which the loop was not left. -/
theorem searchLoop_add (rp rs : Option Regexp) (inc : Bool) (gen : Nat → GenResult) :
    ∀ (m n i : Nat), (searchLoop rp rs inc gen m i).2 = none →
      searchLoop rp rs inc gen (m + n) i =
        ((searchLoop rp rs inc gen m i).1 ++ (searchLoop rp rs inc gen n (i + m)).1,
          (searchLoop rp rs inc gen n (i + m)).2) := by
  intro m
  induction m with
  | zero => intro n i _; simp [searchLoop]
  | succ m ih =>
    intro n i h
    cases hit : (iteration rp rs inc i (gen i)).2 with
    | some e =>
      rw [searchLoop_succ_exit rp rs inc gen m i _ e (Prod.ext rfl hit)] at h
      simp at h
    | none =>
      have hc := searchLoop_succ_continue rp rs inc gen m i _ (Prod.ext rfl hit)
      rw [hc] at h
      rw [show m + 1 + n = (m + n) + 1 by omega,
        searchLoop_succ_continue rp rs inc gen (m + n) i _ (Prod.ext rfl hit), hc,
        ih n (i + 1) h, show i + 1 + m = i + (m + 1) by omega]
      simp [List.append_assoc]

/-- Passes without a match and away from the multiples of 10000 print
nothing. -/
theorem searchLoop_silent (rp rs : Regexp) (inc : Bool) (gen : Nat → GenResult) :
    ∀ (n i : Nat),
      (∀ j, j < n → ∃ key a, gen (i + j) = .ok key a ∧
        rs.MatchString a.EncodeAddress = false ∧ rp.MatchString a.EncodeAddress = false) →
      (∀ j, j < n → (i + j) % 10000 ≠ 0) →
      searchLoop (some rp) (some rs) inc gen n i = ([], none) := by
  intro n
  induction n with
  | zero => intro i _ _; rfl
  | succ n ih =>
    intro i hgen hmod
    obtain ⟨key, a, hg, hs, hp⟩ := hgen 0 (Nat.succ_pos n)
    have hm := hmod 0 (Nat.succ_pos n)
    rw [Nat.add_zero] at hg hm
    have hit : iteration (some rp) (some rs) inc i (gen i) = ([], none) := by
      rw [hg, iteration_quiet rp rs inc i key a hs hp, if_neg hm]
    rw [searchLoop_succ_continue (some rp) (some rs) inc gen n i _ hit,
      ih (i + 1)
        (fun j hj => by
          have := hgen (j + 1) (Nat.succ_lt_succ hj)
          rwa [show i + (j + 1) = i + 1 + j by omega] at this)
        (fun j hj => by
          have := hmod (j + 1) (Nat.succ_lt_succ hj)
          rwa [show i + (j + 1) = i + 1 + j by omega] at this)]
    rfl

/-- A block of passes without a match that starts at a multiple of 10000 and
is at most 10000 long prints the heartbeat of its first pass and nothing
else. -/
theorem searchLoop_block (rp rs : Regexp) (inc : Bool) (gen : Nat → GenResult)
    (n i : Nat) (hi : i % 10000 = 0) (hn0 : 0 < n) (hn : n ≤ 10000)
    (hgen : ∀ j, j < n → ∃ key a, gen (i + j) = .ok key a ∧
      rs.MatchString a.EncodeAddress = false ∧ rp.MatchString a.EncodeAddress = false) :
    searchLoop (some rp) (some rs) inc gen n i = ([.heartbeat i], none) := by
  obtain ⟨m, rfl⟩ : ∃ m, n = m + 1 := ⟨n - 1, by omega⟩
  obtain ⟨key, a, hg, hs, hp⟩ := hgen 0 hn0
  rw [Nat.add_zero] at hg
  have hit : iteration (some rp) (some rs) inc i (gen i) = ([.heartbeat i], none) := by
    rw [hg, iteration_quiet rp rs inc i key a hs hp, if_pos hi]
  rw [searchLoop_succ_continue (some rp) (some rs) inc gen m i _ hit,
    searchLoop_silent rp rs inc gen m (i + 1)
      (fun j hj => by
        have := hgen (j + 1) (Nat.succ_lt_succ hj)
        rwa [show i + (j + 1) = i + 1 + j by omega] at this)
      (fun j hj => by omega)]
  rfl

/-- The loop over 25000 passes without a match. -/
theorem searchLoop_quiet_25000 (rp rs : Regexp) (inc : Bool) (gen : Nat → GenResult)
    (hgen : ∀ i, i < 25000 → ∃ key a, gen i = .ok key a ∧
      rs.MatchString a.EncodeAddress = false ∧ rp.MatchString a.EncodeAddress = false) :
    searchLoop (some rp) (some rs) inc gen 25000 0 =
      ([.heartbeat 0, .heartbeat 10000, .heartbeat 20000], none) := by
  have b0 := searchLoop_block rp rs inc gen 10000 0 (by decide) (by decide) (by decide)
    (fun j hj => by simpa using hgen j (by omega))
  have b1 := searchLoop_block rp rs inc gen 10000 10000 (by decide) (by decide) (by decide)
    (fun j hj => hgen (10000 + j) (by omega))
  have b2 := searchLoop_block rp rs inc gen 5000 20000 (by decide) (by decide) (by decide)
    (fun j hj => hgen (20000 + j) (by omega))
  have s1 : searchLoop (some rp) (some rs) inc gen 20000 0 =
      ([.heartbeat 0, .heartbeat 10000], none) := by
    have := searchLoop_add (some rp) (some rs) inc gen 10000 10000 0 (by rw [b0])
    simpa [b0, b1] using this
  have s2 := searchLoop_add (some rp) (some rs) inc gen 20000 5000 0 (by rw [s1])
  simpa [s1, b2] using s2

/-- The compiled form of the prefixed fragment "ab". -/
theorem regexpCompile_ab (library : String → Except Error Regexp) :
    regexpCompile library (anchored "ab") =
      .ok ⟨"^Dsab", matchString (.concat .beginText (.concat (.literal 'D')
        (.concat (.literal 's') (.concat (.literal 'a') (.literal 'b')))))⟩ := rfl

/-- The compiled form of the prefixed fragment "abc". -/
theorem regexpCompile_abc (library : String → Except Error Regexp) :
    regexpCompile library (anchored "abc") =
      .ok ⟨"^Dsabc", matchString (.concat .beginText (.concat (.literal 'D')
        (.concat (.literal 's') (.concat (.literal 'a')
          (.concat (.literal 'b') (.literal 'c'))))))⟩ := rfl

/-- C7 (as amended): over a run of exactly 25000 passes in which no address
matches either pattern, in either mode, the loop prints exactly three
heartbeat reports, at the passes 0, 10000 and 20000, nothing else, and is
still running. -/
theorem searchKeyPair_heartbeats_25000
    (compile : String → Except Error Regexp) (gen : Nat → GenResult)
    (pri sec : String) (inclusive : Bool) (rp rs : Regexp)
    (hp : pri ≠ "") (hs : sec ≠ "")
    (hcp : compile (anchored pri) = .ok rp) (hcs : compile (anchored sec) = .ok rs)
    (hquiet : ∀ i, i < 25000 → ∃ key a, gen i = .ok key a ∧
      rs.MatchString a.EncodeAddress = false ∧ rp.MatchString a.EncodeAddress = false) :
    searchKeyPair compile gen pri sec inclusive 25000 =
      ([.secondaryPattern rs.expr, .primaryPattern rp.expr,
          .heartbeat 0, .heartbeat 10000, .heartbeat 20000], .running) := by
  rw [searchKeyPair_compiled compile gen pri sec inclusive 25000 rp rs hp hs hcp hcs,
    searchLoop_quiet_25000 rp rs inclusive gen hquiet]
  rfl

theorem searchKeyPair_heartbeats_25000_witness :
    searchKeyPair (regexpCompile unusedLibrary) quietGen "ab" "abc" false 25000 =
      ([.secondaryPattern "^Dsabc", .primaryPattern "^Dsab",
          .heartbeat 0, .heartbeat 10000, .heartbeat 20000], .running) :=
  searchKeyPair_heartbeats_25000 (regexpCompile unusedLibrary) quietGen "ab" "abc" false
    _ _ (by decide) (by decide) (regexpCompile_ab unusedLibrary)
    (regexpCompile_abc unusedLibrary)
    (fun i _ => ⟨⟨i, i + 1, i + 2⟩, ⟨"Dsq"⟩, rfl, by rfl, by rfl⟩)

/-- C7 (as stated) fails: in a run of 25000 passes none of whose addresses
matches either pattern, the heartbeat reports printed are three, the first of
them at pass 0, and not the two of the passes 10000 and 20000. -/
theorem heartbeat_reports_include_pass_zero :
    (∀ i, i < 25000 → ∃ key a rp rs, quietGen i = .ok key a ∧
      regexpCompile unusedLibrary (anchored "ab") = .ok rp ∧
      regexpCompile unusedLibrary (anchored "abc") = .ok rs ∧
      rs.MatchString a.EncodeAddress = false ∧ rp.MatchString a.EncodeAddress = false) ∧
    (searchKeyPair (regexpCompile unusedLibrary) quietGen "ab" "abc" true 25000).1.filter
        Output.isHeartbeat = [.heartbeat 0, .heartbeat 10000, .heartbeat 20000] ∧
    (searchKeyPair (regexpCompile unusedLibrary) quietGen "ab" "abc" true 25000).1.filter
        Output.isHeartbeat ≠ [.heartbeat 10000, .heartbeat 20000] := by
  have hrun : searchKeyPair (regexpCompile unusedLibrary) quietGen "ab" "abc" true 25000 =
      ([.secondaryPattern "^Dsabc", .primaryPattern "^Dsab",
          .heartbeat 0, .heartbeat 10000, .heartbeat 20000], .running) := by
    rw [searchKeyPair_compiled (regexpCompile unusedLibrary) quietGen "ab" "abc" true 25000
      _ _ (by decide) (by decide) (regexpCompile_ab unusedLibrary)
      (regexpCompile_abc unusedLibrary),
      searchLoop_quiet_25000 _ _ true quietGen
        (fun i _ => ⟨⟨i, i + 1, i + 2⟩, ⟨"Dsq"⟩, rfl, by rfl, by rfl⟩)]
    rfl
  refine ⟨fun i _ => ⟨⟨i, i + 1, i + 2⟩, ⟨"Dsq"⟩, _, _, rfl,
    regexpCompile_ab unusedLibrary, regexpCompile_abc unusedLibrary, by rfl, by rfl⟩, ?_, ?_⟩
  · rw [hrun]; rfl
  · rw [hrun]; decide


/-! ## The parse stack -/

theorem splitOperands_re (r : Regex) (st : List Item) :
    splitOperands (.re r :: st) = ((splitOperands st).1 ++ [r], (splitOperands st).2) := by
  simp [splitOperands]

theorem splitOperands_leftParen (st : List Item) :
    splitOperands (.leftParen :: st) = ([], .leftParen :: st) := by
  simp [splitOperands]

theorem splitOperands_verticalBar (st : List Item) :
    splitOperands (.verticalBar :: st) = ([], .verticalBar :: st) := by
  simp [splitOperands]

theorem splitOperands_nil : splitOperands [] = ([], []) := by
  simp [splitOperands]

/-- What is left below the operands is empty or starts with a
pseudo-operator. -/
theorem splitOperands_rest (st : List Item) :
    (splitOperands st).2 = [] ∨
      (∃ rest, (splitOperands st).2 = .leftParen :: rest) ∨
      (∃ rest, (splitOperands st).2 = .verticalBar :: rest) := by
  induction st with
  | nil => left; rw [splitOperands_nil]
  | cons x st ih =>
    cases x with
    | re r => rw [splitOperands_re]; exact ih
    | leftParen => right; left; exact ⟨st, by rw [splitOperands_leftParen]⟩
    | verticalBar => right; right; exact ⟨st, by rw [splitOperands_verticalBar]⟩

theorem depthOf_splitOperands (st : List Item) :
    depthOf (splitOperands st).2 = depthOf st := by
  induction st with
  | nil => rw [splitOperands_nil]
  | cons x st ih =>
    cases x with
    | re r => rw [splitOperands_re]; simpa [depthOf] using ih
    | leftParen => rw [splitOperands_leftParen]
    | verticalBar => rw [splitOperands_verticalBar]

theorem guarded_splitOperands (st : List Item) (h : guarded st) :
    guarded (splitOperands st).2 := by
  induction st with
  | nil => rw [splitOperands_nil]; exact h
  | cons x st ih =>
    cases x with
    | re r => rw [splitOperands_re]; exact ih h
    | leftParen => rw [splitOperands_leftParen]; exact h
    | verticalBar => rw [splitOperands_verticalBar]; exact h

/-- Operands below a stack that holds a pseudo-operator are out of reach. -/
theorem splitOperands_append (st base : List Item) (h : (splitOperands st).2 ≠ []) :
    splitOperands (st ++ base) = ((splitOperands st).1, (splitOperands st).2 ++ base) := by
  induction st with
  | nil => rw [splitOperands_nil] at h; exact absurd rfl h
  | cons x st ih =>
    cases x with
    | re r =>
      rw [splitOperands_re] at h
      rw [List.cons_append, splitOperands_re, splitOperands_re, ih h]
    | leftParen => rw [List.cons_append, splitOperands_leftParen, splitOperands_leftParen]; rfl
    | verticalBar =>
      rw [List.cons_append, splitOperands_verticalBar, splitOperands_verticalBar]; rfl

/-- The operands of a stack of operands only, on top of another such stack. -/
theorem splitOperands_operands (st base : List Item)
    (hst : ∀ x, x ∈ st → x.isOperand = true) (hbase : (splitOperands base).2 = []) :
    splitOperands (st ++ base) = ((splitOperands base).1 ++ (splitOperands st).1, []) := by
  induction st with
  | nil =>
    rw [splitOperands_nil, List.nil_append, List.append_nil]
    exact Prod.ext rfl hbase
  | cons x st ih =>
    cases x with
    | re r =>
      rw [List.cons_append, splitOperands_re, splitOperands_re,
        ih (fun y hy => hst y (List.mem_cons_of_mem _ hy))]
      simp
    | leftParen => simpa [Item.isOperand] using hst .leftParen (List.mem_cons_self _ _)
    | verticalBar => simpa [Item.isOperand] using hst .verticalBar (List.mem_cons_self _ _)

/-- A guarded stack with no open parenthesis holds operands only. -/
theorem operands_of_guarded (st : List Item) (hg : guarded st) (hd : depthOf st = 0) :
    ∀ x, x ∈ st → x.isOperand = true := by
  induction st with
  | nil => intro x hx; simp at hx
  | cons y st ih =>
    cases y with
    | re r =>
      intro x hx
      rcases List.mem_cons.mp hx with rfl | hx
      · rfl
      · exact ih hg hd x hx
    | leftParen => simp [depthOf] at hd
    | verticalBar =>
      have h1 : 0 < depthOf st := hg.1
      have h2 : depthOf st = 0 := hd
      omega


theorem closeAlternation_nil (st : List Item) (h : (splitOperands st).2 = []) :
    closeAlternation st = [.re (collapseConcat (splitOperands st).1)] := by
  simp [closeAlternation, concat, alternate, swapVerticalBar, h, splitOperands,
    collapseAlternate]

theorem closeAlternation_leftParen (st rest : List Item)
    (h : (splitOperands st).2 = .leftParen :: rest) :
    closeAlternation st =
      .re (collapseConcat (splitOperands st).1) :: .leftParen :: rest := by
  simp [closeAlternation, concat, alternate, swapVerticalBar, h, splitOperands,
    collapseAlternate]

theorem closeAlternation_verticalBar (st rest : List Item)
    (h : (splitOperands st).2 = .verticalBar :: rest) :
    closeAlternation st =
      .re (collapseAlternate
          ((splitOperands rest).1 ++ [collapseConcat (splitOperands st).1])) ::
        (splitOperands rest).2 := by
  simp [closeAlternation, concat, alternate, swapVerticalBar, h, splitOperands]

theorem parseVerticalBar_verticalBar (st rest : List Item)
    (h : (splitOperands st).2 = .verticalBar :: rest) :
    parseVerticalBar st =
      .verticalBar :: .re (collapseConcat (splitOperands st).1) :: rest := by
  simp [parseVerticalBar, concat, swapVerticalBar, h]

theorem parseVerticalBar_leftParen (st rest : List Item)
    (h : (splitOperands st).2 = .leftParen :: rest) :
    parseVerticalBar st =
      .verticalBar :: .re (collapseConcat (splitOperands st).1) :: .leftParen :: rest := by
  simp [parseVerticalBar, concat, swapVerticalBar, h]

theorem parseVerticalBar_nil (st : List Item) (h : (splitOperands st).2 = []) :
    parseVerticalBar st = [.verticalBar, .re (collapseConcat (splitOperands st).1)] := by
  simp [parseVerticalBar, concat, swapVerticalBar, h]

theorem depthOf_parseVerticalBar (st : List Item) :
    depthOf (parseVerticalBar st) = depthOf st := by
  have hd := depthOf_splitOperands st
  rcases splitOperands_rest st with h | ⟨rest, h⟩ | ⟨rest, h⟩
  · rw [parseVerticalBar_nil st h]; rw [h] at hd; simpa [depthOf] using hd
  · rw [parseVerticalBar_leftParen st rest h]; rw [h] at hd; simpa [depthOf] using hd
  · rw [parseVerticalBar_verticalBar st rest h]; rw [h] at hd; simpa [depthOf] using hd

theorem guarded_parseVerticalBar (st : List Item) (hg : guarded st)
    (hd : 0 < depthOf st) : guarded (parseVerticalBar st) := by
  have hd2 := depthOf_splitOperands st
  have hg2 := guarded_splitOperands st hg
  rcases splitOperands_rest st with h | ⟨rest, h⟩ | ⟨rest, h⟩
  · rw [h] at hd2; simp [depthOf] at hd2; omega
  · rw [parseVerticalBar_leftParen st rest h]
    rw [h] at hd2 hg2
    exact ⟨by simp [depthOf], hg2⟩
  · rw [parseVerticalBar_verticalBar st rest h]
    rw [h] at hd2 hg2
    simp only [depthOf] at hd2
    exact ⟨by simp only [depthOf]; omega, hg2.2⟩

theorem parseVerticalBar_append (st base : List Item) (hd : 0 < depthOf st) :
    parseVerticalBar (st ++ base) = parseVerticalBar st ++ base := by
  have hd2 := depthOf_splitOperands st
  rcases splitOperands_rest st with h | ⟨rest, h⟩ | ⟨rest, h⟩
  · rw [h] at hd2; simp [depthOf] at hd2; omega
  · have hne : (splitOperands st).2 ≠ [] := by rw [h]; simp
    rw [parseVerticalBar_leftParen st rest h,
      parseVerticalBar_leftParen (st ++ base) (rest ++ base)
        (by rw [splitOperands_append st base hne, h]; rfl),
      splitOperands_append st base hne]
    rfl
  · have hne : (splitOperands st).2 ≠ [] := by rw [h]; simp
    rw [parseVerticalBar_verticalBar st rest h,
      parseVerticalBar_verticalBar (st ++ base) (rest ++ base)
        (by rw [splitOperands_append st base hne, h]; rfl),
      splitOperands_append st base hne]
    rfl

theorem depthOf_closeAlternation (st : List Item) :
    depthOf (closeAlternation st) = depthOf st := by
  have hd := depthOf_splitOperands st
  rcases splitOperands_rest st with h | ⟨rest, h⟩ | ⟨rest, h⟩
  · rw [closeAlternation_nil st h]; rw [h] at hd; simpa [depthOf] using hd
  · rw [closeAlternation_leftParen st rest h]; rw [h] at hd; simpa [depthOf] using hd
  · rw [closeAlternation_verticalBar st rest h]; rw [h] at hd
    simp only [depthOf] at hd ⊢
    rw [depthOf_splitOperands rest]; exact hd

theorem guarded_closeAlternation (st : List Item) (hg : guarded st) :
    guarded (closeAlternation st) := by
  have hg2 := guarded_splitOperands st hg
  rcases splitOperands_rest st with h | ⟨rest, h⟩ | ⟨rest, h⟩
  · rw [closeAlternation_nil st h]; trivial
  · rw [closeAlternation_leftParen st rest h]; rw [h] at hg2; exact hg2
  · rw [closeAlternation_verticalBar st rest h]; rw [h] at hg2
    exact guarded_splitOperands rest hg2.2

/-- When closing an alternation leaves more than one entry, the entries below
the stack were out of reach. -/
theorem closeAlternation_append (st base : List Item)
    (h2 : (closeAlternation st).tail ≠ []) :
    closeAlternation (st ++ base) = closeAlternation st ++ base := by
  rcases splitOperands_rest st with h | ⟨rest, h⟩ | ⟨rest, h⟩
  · rw [closeAlternation_nil st h] at h2; simp at h2
  · have hne : (splitOperands st).2 ≠ [] := by rw [h]; simp
    rw [closeAlternation_leftParen st rest h,
      closeAlternation_leftParen (st ++ base) (rest ++ base)
        (by rw [splitOperands_append st base hne, h]; rfl),
      splitOperands_append st base hne]
    rfl
  · have hne : (splitOperands st).2 ≠ [] := by rw [h]; simp
    rw [closeAlternation_verticalBar st rest h] at h2
    have hne2 : (splitOperands rest).2 ≠ [] := by simpa using h2
    rw [closeAlternation_verticalBar st rest h,
      closeAlternation_verticalBar (st ++ base) (rest ++ base)
        (by rw [splitOperands_append st base hne, h]; rfl),
      splitOperands_append st base hne, splitOperands_append rest base hne2]
    rfl

theorem parseRightParen_append (st st2 base : List Item)
    (h : parseRightParen st = some st2) :
    parseRightParen (st ++ base) = some (st2 ++ base) := by
  unfold parseRightParen at h ⊢
  have key : (closeAlternation st).tail ≠ [] → 
      closeAlternation (st ++ base) = closeAlternation st ++ base :=
    closeAlternation_append st base
  revert h key
  generalize closeAlternation st = c
  intro h key
  match c, h with
  | .re r1 :: .leftParen :: rest, h =>
    rw [key (by simp)]
    simp only [Option.some.injEq] at h
    subst h
    rfl

theorem parseRightParen_shape (st st2 : List Item) (h : parseRightParen st = some st2) :
    ∃ r1 rest, closeAlternation st = .re r1 :: .leftParen :: rest ∧
      st2 = .re r1 :: rest := by
  unfold parseRightParen at h
  revert h
  generalize closeAlternation st = c
  intro h
  match c, h with
  | .re r1 :: .leftParen :: rest, h =>
    simp only [Option.some.injEq] at h
    exact ⟨r1, rest, rfl, h.symm⟩

theorem depthOf_parseRightParen (st st2 : List Item) (h : parseRightParen st = some st2) :
    depthOf st2 = depthOf st - 1 := by
  obtain ⟨r1, rest, hc, rfl⟩ := parseRightParen_shape st st2 h
  have := depthOf_closeAlternation st
  rw [hc] at this
  simp only [depthOf] at this ⊢
  omega

theorem guarded_parseRightParen (st st2 : List Item) (hg : guarded st)
    (h : parseRightParen st = some st2) : guarded st2 := by
  obtain ⟨r1, rest, hc, rfl⟩ := parseRightParen_shape st st2 h
  have := guarded_closeAlternation st hg
  rw [hc] at this
  exact this


theorem repeatStar_append (lr : Bool) (st st2 base : List Item)
    (h : repeatStar lr st = some st2) :
    repeatStar lr (st ++ base) = some (st2 ++ base) := by
  unfold repeatStar at h ⊢
  cases lr with
  | true => simp at h
  | false =>
    match st, h with
    | .re sub :: rest, h =>
      simp only [Bool.false_eq_true, if_false, Option.some.injEq] at h
      subst h
      rfl

theorem repeatStar_shape (lr : Bool) (st st2 : List Item)
    (h : repeatStar lr st = some st2) :
    ∃ sub rest, st = .re sub :: rest ∧ st2 = .re (.star sub) :: rest := by
  unfold repeatStar at h
  cases lr with
  | true => simp at h
  | false =>
    match st, h with
    | .re sub :: rest, h =>
      simp only [Bool.false_eq_true, if_false, Option.some.injEq] at h
      exact ⟨sub, rest, rfl, h.symm⟩

/-- A text all of whose `|` lie inside parentheses is parsed the same way on
top of any stack: what lies below the entries of the text is never touched. -/
theorem parseLoop_append (base : List Item) :
    ∀ (w : List Char) (lr : Bool) (st st2 : List Item),
      guarded st → barsInParens (depthOf st) w = true →
      parseLoop w lr st = .ok st2 →
      parseLoop w lr (st ++ base) = .ok (st2 ++ base) ∧ guarded st2 := by
  intro w
  induction w with
  | nil =>
    intro lr st st2 hg _ h
    simp only [parseLoop, Except.ok.injEq] at h
    subst h
    exact ⟨rfl, hg⟩
  | cons c t ih =>
    intro lr st st2 hg hb h
    rw [parseLoop] at h ⊢
    rw [barsInParens] at hb
    by_cases h1 : c = '('
    · simp only [h1, if_true] at h hb ⊢
      exact ih false (.leftParen :: st) st2 hg hb h
    · simp only [h1, if_false] at h hb ⊢
      by_cases h2 : c = '|'
      · simp only [h2, if_true] at h hb ⊢
        simp only [show ('|' : Char) = ')' ↔ False from by decide, if_false,
          Bool.and_eq_true, decide_eq_true_eq] at hb
        rw [parseVerticalBar_append st base hb.1]
        exact ih false (parseVerticalBar st) st2 (guarded_parseVerticalBar st hg hb.1)
          (by rw [depthOf_parseVerticalBar]; exact hb.2) h
      · simp only [h2, if_false] at h hb ⊢
        by_cases h3 : c = ')'
        · simp only [h3, if_true] at h hb ⊢
          cases hr : parseRightParen st with
          | none => simp [hr] at h
          | some st3 =>
            simp only [hr] at h
            rw [parseRightParen_append st st3 base hr]
            exact ih false st3 st2 (guarded_parseRightParen st st3 hg hr)
              (by rw [depthOf_parseRightParen st st3 hr]; exact hb) h
        · simp only [h3, if_false] at h hb ⊢
          by_cases h4 : c = '^'
          · simp only [h4, if_true] at h ⊢
            exact ih false (.re .beginText :: st) st2 hg hb h
          · simp only [h4, if_false] at h ⊢
            by_cases h5 : c = '.'
            · simp only [h5, if_true] at h ⊢
              exact ih false (.re .anyCharNotNL :: st) st2 hg hb h
            · simp only [h5, if_false] at h ⊢
              by_cases h6 : c = '*'
              · simp only [h6, if_true] at h ⊢
                cases hr : repeatStar lr st with
                | none => simp [hr] at h
                | some st3 =>
                  simp only [hr] at h
                  rw [repeatStar_append lr st st3 base hr]
                  obtain ⟨sub, rest, rfl, rfl⟩ := repeatStar_shape lr st st3 hr
                  exact ih true (.re (.star sub) :: rest) st2 hg hb h
              · simp only [h6, if_false] at h ⊢
                by_cases h7 : isOutside c = true
                · simp [h7] at h
                · simp only [h7, if_false] at h ⊢
                  exact ih false (.re (.literal c) :: st) st2 hg hb h


/-! ## Patterns without `^` -/

theorem mem_splitOperands_fst (st : List Item) (r : Regex)
    (h : r ∈ (splitOperands st).1) : Item.re r ∈ st := by
  induction st with
  | nil => rw [splitOperands_nil] at h; simp at h
  | cons x st ih =>
    cases x with
    | re q =>
      rw [splitOperands_re] at h
      rcases List.mem_append.mp h with h | h
      · exact List.mem_cons_of_mem _ (ih h)
      · simp only [List.mem_singleton] at h
        subst h
        exact List.mem_cons_self _ _
    | leftParen => rw [splitOperands_leftParen] at h; simp at h
    | verticalBar => rw [splitOperands_verticalBar] at h; simp at h

theorem mem_splitOperands_snd (st : List Item) (x : Item)
    (h : x ∈ (splitOperands st).2) : x ∈ st := by
  induction st with
  | nil => rw [splitOperands_nil] at h; simp at h
  | cons y st ih =>
    cases y with
    | re q => rw [splitOperands_re] at h; exact List.mem_cons_of_mem _ (ih h)
    | leftParen => rw [splitOperands_leftParen] at h; exact h
    | verticalBar => rw [splitOperands_verticalBar] at h; exact h

theorem anchorFree_collapseConcat (l : List Regex)
    (h : ∀ r, r ∈ l → r.anchorFree = true) : (collapseConcat l).anchorFree = true := by
  induction l with
  | nil => rfl
  | cons x l ih =>
    cases l with
    | nil => exact h x (List.mem_cons_self _ _)
    | cons y l =>
      simp only [collapseConcat, Regex.anchorFree, Bool.and_eq_true]
      exact ⟨h x (List.mem_cons_self _ _), ih (fun r hr => h r (List.mem_cons_of_mem _ hr))⟩

theorem anchorFree_collapseAlternate (l : List Regex)
    (h : ∀ r, r ∈ l → r.anchorFree = true) : (collapseAlternate l).anchorFree = true := by
  induction l with
  | nil => rfl
  | cons x l ih =>
    cases l with
    | nil => exact h x (List.mem_cons_self _ _)
    | cons y l =>
      simp only [collapseAlternate, Regex.anchorFree, Bool.and_eq_true]
      exact ⟨h x (List.mem_cons_self _ _), ih (fun r hr => h r (List.mem_cons_of_mem _ hr))⟩

theorem anchorFree_operands (st : List Item) (h : stackAnchorFree st) :
    (collapseConcat (splitOperands st).1).anchorFree = true :=
  anchorFree_collapseConcat _ (fun r hr => h r (mem_splitOperands_fst st r hr))

theorem stackAnchorFree_cons (r : Regex) (st : List Item) (hr : r.anchorFree = true)
    (h : stackAnchorFree st) : stackAnchorFree (.re r :: st) := by
  intro q hq
  rcases List.mem_cons.mp hq with hq | hq
  · simp only [Item.re.injEq] at hq
    subst hq
    exact hr
  · exact h q hq

theorem stackAnchorFree_pseudo (x : Item) (st : List Item) (hx : x.isOperand = false)
    (h : stackAnchorFree st) : stackAnchorFree (x :: st) := by
  intro q hq
  rcases List.mem_cons.mp hq with hq | hq
  · subst hq; simp [Item.isOperand] at hx
  · exact h q hq

theorem stackAnchorFree_rest (st : List Item) (h : stackAnchorFree st) :
    stackAnchorFree (splitOperands st).2 :=
  fun r hr => h r (mem_splitOperands_snd st _ hr)

theorem stackAnchorFree_tail (x : Item) (st : List Item)
    (h : stackAnchorFree (x :: st)) : stackAnchorFree st :=
  fun r hr => h r (List.mem_cons_of_mem _ hr)

theorem stackAnchorFree_parseVerticalBar (st : List Item) (h : stackAnchorFree st) :
    stackAnchorFree (parseVerticalBar st) := by
  have hx := anchorFree_operands st h
  have hrest := stackAnchorFree_rest st h
  rcases splitOperands_rest st with h0 | ⟨rest, h0⟩ | ⟨rest, h0⟩
  · rw [parseVerticalBar_nil st h0]
    exact stackAnchorFree_pseudo _ _ rfl
      (stackAnchorFree_cons _ _ hx (fun r hr => by simp at hr))
  · rw [parseVerticalBar_leftParen st rest h0]
    rw [h0] at hrest
    exact stackAnchorFree_pseudo _ _ rfl (stackAnchorFree_cons _ _ hx hrest)
  · rw [parseVerticalBar_verticalBar st rest h0]
    rw [h0] at hrest
    exact stackAnchorFree_pseudo _ _ rfl
      (stackAnchorFree_cons _ _ hx (stackAnchorFree_tail _ _ hrest))

theorem stackAnchorFree_closeAlternation (st : List Item) (h : stackAnchorFree st) :
    stackAnchorFree (closeAlternation st) := by
  have hx := anchorFree_operands st h
  have hrest := stackAnchorFree_rest st h
  rcases splitOperands_rest st with h0 | ⟨rest, h0⟩ | ⟨rest, h0⟩
  · rw [closeAlternation_nil st h0]
    exact stackAnchorFree_cons _ _ hx (fun r hr => by simp at hr)
  · rw [closeAlternation_leftParen st rest h0]
    rw [h0] at hrest
    exact stackAnchorFree_cons _ _ hx hrest
  · rw [closeAlternation_verticalBar st rest h0]
    rw [h0] at hrest
    have hrest2 := stackAnchorFree_tail _ _ hrest
    refine stackAnchorFree_cons _ _ ?_ (stackAnchorFree_rest rest hrest2)
    apply anchorFree_collapseAlternate
    intro r hr
    rcases List.mem_append.mp hr with hr | hr
    · exact hrest2 r (mem_splitOperands_fst rest r hr)
    · simp only [List.mem_singleton] at hr
      subst hr
      exact hx

theorem stackAnchorFree_parseLoop :
    ∀ (w : List Char) (lr : Bool) (st st2 : List Item),
      '^' ∉ w → stackAnchorFree st → parseLoop w lr st = .ok st2 →
      stackAnchorFree st2 := by
  intro w
  induction w with
  | nil =>
    intro lr st st2 _ hst h
    simp only [parseLoop, Except.ok.injEq] at h
    subst h
    exact hst
  | cons c t ih =>
    intro lr st st2 hw hst h
    have hc : '^' ≠ c := fun hc => hw (by rw [hc]; exact List.mem_cons_self _ _)
    have ht : '^' ∉ t := fun ht => hw (List.mem_cons_of_mem _ ht)
    rw [parseLoop] at h
    by_cases h1 : c = '('
    · simp only [h1, if_true] at h
      exact ih false _ st2 ht (stackAnchorFree_pseudo .leftParen st rfl hst) h
    · simp only [h1, if_false] at h
      by_cases h2 : c = '|'
      · simp only [h2, if_true] at h
        exact ih false _ st2 ht (stackAnchorFree_parseVerticalBar st hst) h
      · simp only [h2, if_false] at h
        by_cases h3 : c = ')'
        · simp only [h3, if_true] at h
          cases hr : parseRightParen st with
          | none => simp [hr] at h
          | some st3 =>
            simp only [hr] at h
            obtain ⟨r1, rest, hcl, rfl⟩ := parseRightParen_shape st st3 hr
            have hca := stackAnchorFree_closeAlternation st hst
            rw [hcl] at hca
            refine ih false _ st2 ht ?_ h
            exact stackAnchorFree_cons _ _ (hca r1 (List.mem_cons_self _ _))
              (stackAnchorFree_tail _ _ (stackAnchorFree_tail _ _ hca))
        · simp only [h3, if_false] at h
          by_cases h4 : c = '^'
          · exact absurd h4.symm hc
          · simp only [h4, if_false] at h
            by_cases h5 : c = '.'
            · simp only [h5, if_true] at h
              exact ih false _ st2 ht (stackAnchorFree_cons .anyCharNotNL st rfl hst) h
            · simp only [h5, if_false] at h
              by_cases h6 : c = '*'
              · simp only [h6, if_true] at h
                cases hr : repeatStar lr st with
                | none => simp [hr] at h
                | some st3 =>
                  simp only [hr] at h
                  obtain ⟨sub, rest, rfl, rfl⟩ := repeatStar_shape lr st st3 hr
                  refine ih true _ st2 ht ?_ h
                  exact stackAnchorFree_cons _ _
                    (hst sub (List.mem_cons_self _ _)) (stackAnchorFree_tail _ _ hst)
              · simp only [h6, if_false] at h
                by_cases h7 : isOutside c = true
                · simp [h7] at h
                · simp only [h7, if_false] at h
                  exact ih false _ st2 ht (stackAnchorFree_cons (.literal c) st rfl hst) h


/-! ## Matching -/

theorem advance_nil (n : Nat) (r : Regex) : advance n r [] = [] := by
  induction r with
  | emptyMatch => rfl
  | noMatch => rfl
  | literal c => rfl
  | anyCharNotNL => rfl
  | beginText => rfl
  | concat r s ihr ihs => simp [advance, ihr, ihs]
  | alternate r s ihr ihs => simp [advance, ihr, ihs]
  | star r ih => simp [advance, longest, List.range_succ, ih]

/-- A pattern without `^` matches the same way whatever the length of the
whole text. -/
theorem advance_anchorFree (n m : Nat) (r : Regex) (h : r.anchorFree = true) :
    ∀ ps, advance n r ps = advance m r ps := by
  induction r with
  | emptyMatch => intro ps; rfl
  | noMatch => intro ps; rfl
  | literal c => intro ps; rfl
  | anyCharNotNL => intro ps; rfl
  | beginText => simp [Regex.anchorFree] at h
  | concat r s ihr ihs =>
    intro ps
    simp only [Regex.anchorFree, Bool.and_eq_true] at h
    simp only [advance, ihr h.1, ihs h.2]
  | alternate r s ihr ihs =>
    intro ps
    simp only [Regex.anchorFree, Bool.and_eq_true] at h
    simp only [advance, ihr h.1, ihs h.2]
  | star r ih =>
    intro ps
    simp only [Regex.anchorFree] at h
    simp only [advance]
    have : (fun (acc : List (List Char)) (_ : Nat) => ps ++ advance n r acc) =
        (fun acc _ => ps ++ advance m r acc) := by
      funext acc _
      rw [ih h acc]
    rw [this]

theorem advance_collapseConcat_cons (n : Nat) (x : Regex) (xs : List Regex)
    (ps : List (List Char)) :
    advance n (collapseConcat (x :: xs)) ps = advance n (collapseConcat xs) (advance n x ps) := by
  cases xs with
  | nil => rfl
  | cons y ys => rfl

/-- Of the ends of a text, only the text itself has its length. -/
theorem tails_filter_length (t : List Char) :
    t.tails.filter (fun p => decide (p.length = t.length)) = [t] := by
  cases t with
  | nil => rfl
  | cons x xs =>
    rw [List.tails, List.filter_cons_of_pos (by simp)]
    congr 1
    rw [List.filter_eq_nil_iff]
    intro p hp
    have := (List.mem_tails _ _).mp hp
    have := this.length_le
    simp only [List.length_cons, decide_eq_true_eq]
    omega

/-- The pattern that starts with `^`, `D` and `s` matches a text exactly when
the text starts with the two characters and the rest of the pattern matches
right after them. -/
theorem matchString_lead (subs : List Regex) (S : String) :
    matchString
        (collapseConcat (.beginText :: .literal 'D' :: .literal 's' :: subs)) S =
      match S.data with
      | 'D' :: 's' :: T => !(advance S.length (collapseConcat subs) [T]).isEmpty
      | _ => false := by
  unfold matchString
  rw [advance_collapseConcat_cons, advance_collapseConcat_cons, advance_collapseConcat_cons]
  have hb : advance S.length .beginText S.data.tails = [S.data] := by
    simp only [advance]
    exact tails_filter_length S.data
  rw [hb]
  rcases hS : S.data with _ | ⟨c, _ | ⟨d, T⟩⟩
  · simp [advance, advance_nil]
  · by_cases hc : c = 'D' <;> simp [advance, advance_nil, hc]
  · by_cases hc : c = 'D'
    · by_cases hd : d = 's'
      · subst hc hd
        simp [advance]
      · simp [advance, advance_nil, hc, hd]
    · simp [advance, advance_nil, hc]


/-! ## The prefixed pattern -/

theorem parse_shape (P : List Char) (r : Regex) (h : parse P = .ok r) :
    ∃ st, parseLoop P false [] = .ok st ∧ closeAlternation st = [.re r] := by
  unfold parse at h
  cases hl : parseLoop P false [] with
  | error e => simp [hl] at h
  | ok st =>
    simp only [hl] at h
    refine ⟨st, rfl, ?_⟩
    revert h
    generalize closeAlternation st = c
    intro h
    match c, h with
    | [.re q], h =>
      simp only [Except.ok.injEq] at h
      rw [h]

theorem parse_anchorFree (P : List Char) (r : Regex) (h : parse P = .ok r)
    (hP : '^' ∉ P) : r.anchorFree = true := by
  obtain ⟨st, hl, hc⟩ := parse_shape P r h
  have h1 := stackAnchorFree_parseLoop P false [] st hP (fun q hq => by simp at hq) hl
  have h2 := stackAnchorFree_closeAlternation st h1
  rw [hc] at h2
  exact h2 r (List.mem_cons_self _ _)

/-- A valid fragment with every `|` inside parentheses is parsed, behind the
prefix, into the start of the text, the two characters and then the operands
the fragment parses into on its own. -/
theorem parse_anchored (P : List Char) (r : Regex) (h : parse P = .ok r)
    (hbars : barsInParens 0 P = true) :
    ∃ subs, r = collapseConcat subs ∧
      parse ('^' :: 'D' :: 's' :: P) =
        .ok (collapseConcat (.beginText :: .literal 'D' :: .literal 's' :: subs)) := by
  obtain ⟨st, hl, hc⟩ := parse_shape P r h
  obtain ⟨hframe, hg⟩ := parseLoop_append
    [.re (.literal 's'), .re (.literal 'D'), .re .beginText] P false [] st trivial hbars hl
  have hd : depthOf st = 0 := by
    have := depthOf_closeAlternation st
    rw [hc] at this
    exact this.symm
  have hops := operands_of_guarded st hg hd
  have hs0 := splitOperands_operands st [] hops rfl
  rw [List.append_nil] at hs0
  have hs2 : (splitOperands st).2 = [] := by rw [hs0]
  have hr : r = collapseConcat (splitOperands st).1 := by
    have := closeAlternation_nil st hs2
    rw [hc] at this
    simpa using this
  refine ⟨(splitOperands st).1, hr, ?_⟩
  have hs1 := splitOperands_operands st
    [.re (.literal 's'), .re (.literal 'D'), .re .beginText] hops rfl
  have hlead : parseLoop ('^' :: 'D' :: 's' :: P) false [] =
      parseLoop P false [.re (.literal 's'), .re (.literal 'D'), .re .beginText] := by
    simp [parseLoop, isOutside]
  rw [List.nil_append] at hframe
  unfold parse
  rw [hlead, hframe]
  simp only []
  rw [closeAlternation_nil _ (by rw [hs1]), hs1]
  rfl

theorem anchored_data (P : String) : (anchored P).data = '^' :: 'D' :: 's' :: P.data := by
  simp [anchored, String.data_append]

/-- Where the prefix does anchor the fragment: for every fragment `P` of the
modelled syntax that is a valid pattern, has every `|` inside parentheses and
has no `^`, the matcher compiled from "^Ds" followed by `P` matches a text `S`
if and only if `S` is "Ds" followed by a text `T` at whose start `P`
matches. -/
theorem matcher_iff_lead_then_fragment (library : String → Except Error Regexp)
    (P S : String) (r : Regex)
    (hvalid : parse P.data = .ok r) (hbars : barsInParens 0 P.data = true)
    (hanchor : '^' ∉ P.data) :
    ∃ re, regexpCompile library (anchored P) = .ok re ∧
      (re.MatchString S = true ↔
        ∃ T : String, S = "Ds" ++ T ∧ matchAtStart r T = true) := by
  obtain ⟨subs, hr, hparse⟩ := parse_anchored P.data r hvalid hbars
  have hfree := parse_anchorFree P.data r hvalid hanchor
  refine ⟨⟨anchored P, matchString
    (collapseConcat (.beginText :: .literal 'D' :: .literal 's' :: subs))⟩, ?_, ?_⟩
  · simp only [regexpCompile, anchored_data, hparse]
  · show matchString _ S = true ↔ _
    rw [matchString_lead, ← hr]
    constructor
    · intro h
      rcases hS : S.data with _ | ⟨c, _ | ⟨d, T⟩⟩
      · simp [hS] at h
      · simp [hS] at h
      · rw [hS] at h
        by_cases hc : c = 'D'
        · by_cases hd : d = 's'
          · subst hc hd
            simp only at h
            refine ⟨⟨T⟩, ?_, ?_⟩
            · apply String.ext
              rw [hS, String.data_append]
              rfl
            · unfold matchAtStart
              rw [advance_anchorFree _ S.length r hfree]
              exact h
          · exfalso
            split at h
            · next heq => simp at heq; exact hd heq.2.1
            · simp at h
        · exfalso
          split at h
          · next heq => simp at heq; exact hc heq.1
          · simp at h
    · rintro ⟨T, rfl, hT⟩
      have hd : ("Ds" ++ T).data = 'D' :: 's' :: T.data := by
        rw [String.data_append]; rfl
      rw [hd]
      simp only
      unfold matchAtStart at hT
      rw [advance_anchorFree _ T.length r hfree]
      exact hT


/-- C8: the fragment "a|b" is a valid pattern, and the text `searchKeyPair`
compiles for it, "^Dsa|b", is read as the alternation of "^Dsa" and "b".  Its
matcher accepts the text "Dsxb", in which no text matched by "a|b" follows
"Ds", and the text "b", which does not start with "Ds" at all; a search with
this fragment for both patterns ends on the address "Dsxb". -/
theorem alternation_escapes_lead (library : String → Except Error Regexp) :
    ∃ re r, regexpCompile library (anchored "a|b") = .ok re ∧
      parse "a|b".data = .ok r ∧
      parse (anchored "a|b").data =
        .ok (.alternate (.concat .beginText (.concat (.literal 'D')
          (.concat (.literal 's') (.literal 'a')))) (.literal 'b')) ∧
      re.MatchString "Dsxb" = true ∧
      (¬ ∃ T : String, "Dsxb" = "Ds" ++ T ∧ matchAtStart r T = true) ∧
      re.MatchString "b" = true ∧
      (¬ ∃ T : String, "b" = "Ds" ++ T ∧ matchAtStart r T = true) ∧
      (searchKeyPair (regexpCompile library) (fun i => .ok (sampleKey i) ⟨"Dsxb"⟩)
        "a|b" "a|b" true 1).2 =
        .returned (some (sampleKey 0)) (some ⟨"Dsxb"⟩) none := by
  refine ⟨⟨"^Dsa|b", matchString (.alternate (.concat .beginText
      (.concat (.literal 'D') (.concat (.literal 's') (.literal 'a'))))
      (.literal 'b'))⟩,
    .alternate (.literal 'a') (.literal 'b'), by rfl, by rfl, by rfl, by rfl, ?_,
    by rfl, ?_, by rfl⟩
  · rintro ⟨T, hT, hm⟩
    have hd := congrArg String.data hT
    rw [String.data_append] at hd
    have hT2 : T = "xb" := by
      apply String.ext
      simpa using hd.symm
    subst hT2
    exact absurd hm (by decide)
  · rintro ⟨T, hT, _⟩
    have hd := congrArg String.data hT
    rw [String.data_append] at hd
    simp at hd

/-- A pattern that starts with `^`, `D` and `s` rejects every text whose first
character is not `D`. -/
theorem matchString_lead_mismatch (subs : List Regex) (S : String) (c : Char)
    (T : List Char) (hS : S.data = c :: T) (hc : c ≠ 'D') :
    matchString
      (collapseConcat (.beginText :: .literal 'D' :: .literal 's' :: subs)) S = false := by
  rw [matchString_lead, hS]
  split
  · next heq => simp at heq; exact absurd heq.1 hc
  · rfl

theorem iteration_inclusive_skip (rp rs : Option Regexp) (i : Nat) (key : PrivateKey)
    (a : AddressPubKeyHash) (h : matchesNonNil rs a.EncodeAddress = false) :
    (iteration rp rs true i (.ok key a)).2 = none := by
  simp [iteration, h]

/-- C9: with the testnet flag `main` selects the testnet parameters, whose
addresses start with "Ts", and with the simnet flag the simnet parameters,
whose addresses start with "Ss", but the pattern `searchKeyPair` compiles for
the fragment "a" is "^Dsa" all the same; its matcher rejects every text that
starts with "Ts" or with "Ss", and a search all of whose addresses are testnet
addresses is still running after any number of passes. -/
theorem pattern_lead_ignores_network (library : String → Except Error Regexp) :
    selectParams true false = some .TestNetParams ∧
      Params.pubKeyHashLead .TestNetParams = "Ts" ∧
      selectParams false true = some .SimNetParams ∧
      Params.pubKeyHashLead .SimNetParams = "Ss" ∧
      anchored "a" = "^Dsa" ∧
      (∃ re, regexpCompile library (anchored "a") = .ok re ∧
        (∀ T : String,
          re.MatchString (Params.pubKeyHashLead .TestNetParams ++ T) = false) ∧
        (∀ T : String,
          re.MatchString (Params.pubKeyHashLead .SimNetParams ++ T) = false)) ∧
      ∀ (gen : Nat → GenResult) (fuel : Nat),
        (∀ i, ∃ key T,
          gen i = .ok key ⟨Params.pubKeyHashLead .TestNetParams ++ T⟩) →
        (searchKeyPair (regexpCompile library) gen "a" "a" true fuel).2 = .running := by
  have hT : ∀ T : String, matchString
      (collapseConcat [.beginText, .literal 'D', .literal 's', .literal 'a'])
      (Params.pubKeyHashLead .TestNetParams ++ T) = false := fun T =>
    matchString_lead_mismatch _ _ 'T' ('s' :: T.data)
      (by rw [String.data_append]; rfl) (by decide)
  have hS : ∀ T : String, matchString
      (collapseConcat [.beginText, .literal 'D', .literal 's', .literal 'a'])
      (Params.pubKeyHashLead .SimNetParams ++ T) = false := fun T =>
    matchString_lead_mismatch _ _ 'S' ('s' :: T.data)
      (by rw [String.data_append]; rfl) (by decide)
  have hc : regexpCompile library (anchored "a") = .ok ⟨"^Dsa", matchString
      (collapseConcat [.beginText, .literal 'D', .literal 's', .literal 'a'])⟩ := by rfl
  refine ⟨rfl, rfl, rfl, rfl, by rfl, ⟨_, hc, hT, hS⟩, ?_⟩
  intro gen fuel hgen
  rw [searchKeyPair_compiled (regexpCompile library) gen "a" "a" true fuel _ _
    (by decide) (by decide) hc hc]
  have hrun := searchLoop_running
    (some ⟨"^Dsa", matchString
      (collapseConcat [.beginText, .literal 'D', .literal 's', .literal 'a'])⟩)
    (some ⟨"^Dsa", matchString
      (collapseConcat [.beginText, .literal 'D', .literal 's', .literal 'a'])⟩)
    true gen fuel 0
    (fun j _ => by
      obtain ⟨key, T, hg⟩ := hgen (0 + j)
      rw [hg]
      exact iteration_inclusive_skip _ _ _ key _ (hT T))
  rw [hrun]


end Dcrvanity
